import Mathlib

/-!
Verification development for the date/time handling script
(`first_steps/datetime.py`) against its design specification.

The script exercises calendar construction, datetime/timedelta
arithmetic, free-form parsing, explicit-format parsing, element-wise
collection parsing, field combination, and periodic range generation.
The spec abstracts these as a `DateNormalizer` component over a
`CalendarInstant` data model.  The library routines the script calls
are not part of the repository source, so the operations below are
modelled from the specification's description of them; the calendar
arithmetic follows the proleptic Gregorian calendar the spec names.
-/

/-- One point on the proleptic Gregorian calendar, no time zone:
fields {year, month, day, hour, minute, second, microsecond}. -/
structure CalendarInstant where
  year : Nat
  month : Nat
  day : Nat
  hour : Nat
  minute : Nat
  second : Nat
  microsecond : Nat
deriving DecidableEq, Repr

/-- Gregorian leap-year rule. -/
def isLeap (y : Nat) : Bool :=
  (y % 4 == 0 && y % 100 != 0) || y % 400 == 0

/-- Number of days in month `m` of year `y` (months numbered 1..12;
out-of-range months are never produced by valid instants). -/
def daysInMonth (y m : Nat) : Nat :=
  if m = 2 then (if isLeap y then 29 else 28)
  else if m = 4 ∨ m = 6 ∨ m = 9 ∨ m = 11 then 30
  else 31

/-- Number of days in year `y`. -/
def daysInYear (y : Nat) : Nat :=
  if isLeap y then 366 else 365

/-- A fully resolved instant: every field within its conventional
calendar range. -/
def CalendarInstant.Valid (a : CalendarInstant) : Prop :=
  1 ≤ a.year ∧ 1 ≤ a.month ∧ a.month ≤ 12 ∧
  1 ≤ a.day ∧ a.day ≤ daysInMonth a.year a.month ∧
  a.hour < 24 ∧ a.minute < 60 ∧ a.second < 60 ∧ a.microsecond < 1000000

instance (a : CalendarInstant) : Decidable a.Valid := by
  unfold CalendarInstant.Valid; infer_instance

/-- Sum of `f` over the `k` consecutive arguments `i, i+1, ..., i+k-1`. -/
def sumFrom (f : Nat → Nat) (i k : Nat) : Nat :=
  match k with
  | 0 => 0
  | k + 1 => f i + sumFrom f (i + 1) k

/-- Starting at index `i`, repeatedly subtract `f` of the current index
from `n` while possible; returns the index reached and the remainder.
The `f i = 0` escape only guards termination: the block functions used
here are everywhere positive. -/
def findFrom (f : Nat → Nat) (i n : Nat) : Nat × Nat :=
  if h : n < f i ∨ f i = 0 then (i, n)
  else findFrom f (i + 1) (n - f i)
termination_by n
decreasing_by
  push_neg at h
  omega

/-- Number of leap years among years `1, ..., n`. -/
def leapsBefore (n : Nat) : Nat :=
  n / 4 - n / 100 + n / 400

/-- Days in all years strictly before year `y` (closed form). -/
def daysBeforeYear (y : Nat) : Nat :=
  365 * (y - 1) + leapsBefore (y - 1)

/-- Days since the calendar epoch (year 1, January 1 is day 0)
of the date part of an instant. -/
def toOrdinal (a : CalendarInstant) : Nat :=
  daysBeforeYear a.year +
    (sumFrom (daysInMonth a.year) 1 (a.month - 1) + (a.day - 1))

/-- Inverse of `toOrdinal`: recover (year, month, day) from a day count. -/
def fromOrdinal (n : Nat) : Nat × Nat × Nat :=
  let yr := findFrom daysInYear 1 n
  let md := findFrom (daysInMonth yr.1) 1 yr.2
  (yr.1, md.1, md.2 + 1)

/-- Microseconds per day. -/
def usPerDay : Nat := 86400000000

/-- Microseconds since midnight of the time part of an instant. -/
def todOf (a : CalendarInstant) : Nat :=
  ((a.hour * 60 + a.minute) * 60 + a.second) * 1000000 + a.microsecond

/-- Microseconds since the calendar epoch of an instant. -/
def toMicros (a : CalendarInstant) : Nat :=
  toOrdinal a * usPerDay + todOf a

/-- Recover a CalendarInstant from a microsecond count since the epoch. -/
def fromMicros (n : Nat) : CalendarInstant :=
  let od := n / usPerDay
  let t := n % usPerDay
  ⟨(fromOrdinal od).1, (fromOrdinal od).2.1, (fromOrdinal od).2.2,
    t / 3600000000, t / 60000000 % 60, t / 1000000 % 60, t % 1000000⟩

/-- Modelled from the spec: a `Duration` is a signed quantity of elapsed
time (days plus a sub-day remainder); represented as a signed count of
microseconds. -/
abbrev Duration : Type := Int

/-- Modelled from the spec: subtraction of two CalendarInstants yields
a Duration (the script's `datetime(...) - datetime(...)`). -/
def subInstant (a b : CalendarInstant) : Duration :=
  (toMicros a : Int) - (toMicros b : Int)

/-- Modelled from the spec: adding a Duration to a CalendarInstant
yields another CalendarInstant (the script's `datetime + timedelta`). -/
def addDuration (a : CalendarInstant) (d : Duration) : CalendarInstant :=
  fromMicros ((toMicros a : Int) + d).toNat

/-- Whole-day count of a Duration, with floor rounding as in the
library's `timedelta.days` normalization. -/
def durationDays (d : Duration) : Int :=
  Int.fdiv d (usPerDay : Int)

/-- A one-day Duration. -/
def oneDayDuration : Duration := (usPerDay : Int)

-- ### Arithmetic lemmas: the civil-calendar round trip

theorem sumFrom_succ (f : Nat → Nat) (i k : Nat) :
    sumFrom f i (k + 1) = f i + sumFrom f (i + 1) k := rfl

theorem sumFrom_split (f : Nat → Nat) (i k l : Nat) :
    sumFrom f i (k + l) = sumFrom f i k + sumFrom f (i + k) l := by
  induction k generalizing i with
  | zero => simp [sumFrom]
  | succ k ih =>
    have h1 : k + 1 + l = (k + l) + 1 := by omega
    rw [h1, sumFrom_succ, sumFrom_succ, ih]
    have h2 : i + 1 + k = i + (k + 1) := by omega
    rw [h2, Nat.add_assoc]

theorem sumFrom_append (f : Nat → Nat) (i k : Nat) :
    sumFrom f i (k + 1) = sumFrom f i k + f (i + k) := by
  rw [sumFrom_split f i k 1]
  simp [sumFrom]

theorem findFrom_eq (f : Nat → Nat) (hf : ∀ j, 0 < f j) :
    ∀ (k i r : Nat), r < f (i + k) →
      findFrom f i (sumFrom f i k + r) = (i + k, r) := by
  intro k
  induction k with
  | zero =>
    intro i r hr
    have hr' : r < f i := by simpa using hr
    simp only [sumFrom, Nat.zero_add, Nat.add_zero]
    rw [findFrom, dif_pos (Or.inl hr')]
  | succ k ih =>
    intro i r hr
    rw [findFrom]
    have hpos : 0 < f i := hf i
    have hge : sumFrom f i (k + 1) + r ≥ f i := by
      rw [sumFrom_succ]; omega
    rw [dif_neg (by omega)]
    have harg : sumFrom f i (k + 1) + r - f i = sumFrom f (i + 1) k + r := by
      rw [sumFrom_succ]; omega
    rw [harg]
    have hr2 : r < f (i + 1 + k) := by
      have : i + 1 + k = i + (k + 1) := by omega
      rw [this]; exact hr
    rw [ih (i + 1) r hr2]
    have : i + 1 + k = i + (k + 1) := by omega
    rw [this]

theorem isLeap_iff (n : Nat) :
    isLeap n = true ↔ ((n % 4 = 0 ∧ n % 100 ≠ 0) ∨ n % 400 = 0) := by
  simp [isLeap, Bool.or_eq_true, Bool.and_eq_true, beq_iff_eq, bne_iff_ne]

theorem sumFrom_daysInYear (k : Nat) :
    sumFrom daysInYear 1 k = 365 * k + leapsBefore k := by
  induction k with
  | zero => simp [sumFrom, leapsBefore]
  | succ k ih =>
    rw [sumFrom_append, ih]
    have hcomm : 1 + k = k + 1 := by omega
    rw [hcomm]
    unfold daysInYear
    cases h : isLeap (k + 1) with
    | false =>
      have hp : ¬(((k + 1) % 4 = 0 ∧ (k + 1) % 100 ≠ 0) ∨ (k + 1) % 400 = 0) := by
        rw [← isLeap_iff, h]; simp
      rw [if_neg Bool.false_ne_true]
      unfold leapsBefore
      omega
    | true =>
      have hp : ((k + 1) % 4 = 0 ∧ (k + 1) % 100 ≠ 0) ∨ (k + 1) % 400 = 0 := by
        rw [← isLeap_iff]; exact h
      rw [if_pos rfl]
      unfold leapsBefore
      omega

theorem toOrdinal_sum (a : CalendarInstant) :
    toOrdinal a = sumFrom daysInYear 1 (a.year - 1) +
      (sumFrom (daysInMonth a.year) 1 (a.month - 1) + (a.day - 1)) := by
  unfold toOrdinal daysBeforeYear
  rw [sumFrom_daysInYear]

theorem daysInMonth_pos (y m : Nat) : 0 < daysInMonth y m := by
  unfold daysInMonth
  split
  · split <;> omega
  · split <;> omega

theorem daysInYear_pos (y : Nat) : 0 < daysInYear y := by
  unfold daysInYear
  split <;> omega

theorem sumFrom_daysInMonth_twelve (y : Nat) :
    sumFrom (daysInMonth y) 1 12 = daysInYear y := by
  cases h : isLeap y <;>
    simp [sumFrom, daysInMonth, daysInYear, h]

theorem monthPart_lt (y m d : Nat) (hm1 : 1 ≤ m) (hm2 : m ≤ 12)
    (hd1 : 1 ≤ d) (hd2 : d ≤ daysInMonth y m) :
    sumFrom (daysInMonth y) 1 (m - 1) + (d - 1) < daysInYear y := by
  have h1 : sumFrom (daysInMonth y) 1 (m - 1) + (d - 1) <
      sumFrom (daysInMonth y) 1 m := by
    have hs : sumFrom (daysInMonth y) 1 m =
        sumFrom (daysInMonth y) 1 (m - 1) + daysInMonth y (1 + (m - 1)) := by
      have hm : m = (m - 1) + 1 := by omega
      calc sumFrom (daysInMonth y) 1 m
        = sumFrom (daysInMonth y) 1 ((m - 1) + 1) := by rw [← hm]
        _ = sumFrom (daysInMonth y) 1 (m - 1) + daysInMonth y (1 + (m - 1)) :=
          sumFrom_append _ 1 (m - 1)
    have he : 1 + (m - 1) = m := by omega
    rw [hs, he]
    omega
  have h2 : sumFrom (daysInMonth y) 1 m ≤ sumFrom (daysInMonth y) 1 12 := by
    have hs := sumFrom_split (daysInMonth y) 1 m (12 - m)
    have hm12 : m + (12 - m) = 12 := by omega
    rw [hm12] at hs
    omega
  rw [sumFrom_daysInMonth_twelve] at h2
  omega

/-- The civil-date round trip: converting a valid instant's date to its
epoch day count and back recovers year, month and day. -/
theorem fromOrdinal_toOrdinal (a : CalendarInstant) (h : a.Valid) :
    fromOrdinal (toOrdinal a) = (a.year, a.month, a.day) := by
  obtain ⟨hy, hm1, hm2, hd1, hd2, _⟩ := h
  rw [toOrdinal_sum]
  unfold fromOrdinal
  have hrlt : sumFrom (daysInMonth a.year) 1 (a.month - 1) + (a.day - 1) <
      daysInYear (1 + (a.year - 1)) := by
    have he : 1 + (a.year - 1) = a.year := by omega
    rw [he]
    exact monthPart_lt a.year a.month a.day hm1 hm2 hd1 hd2
  rw [findFrom_eq daysInYear daysInYear_pos (a.year - 1) 1 _ hrlt]
  have hy' : 1 + (a.year - 1) = a.year := by omega
  simp only [hy']
  have hdlt : a.day - 1 < daysInMonth a.year (1 + (a.month - 1)) := by
    have he : 1 + (a.month - 1) = a.month := by omega
    rw [he]; omega
  rw [findFrom_eq (daysInMonth a.year) (daysInMonth_pos a.year)
    (a.month - 1) 1 (a.day - 1) hdlt]
  have hm' : 1 + (a.month - 1) = a.month := by omega
  have hd' : a.day - 1 + 1 = a.day := by omega
  rw [hm', hd']

theorem todOf_lt (a : CalendarInstant) (h : a.Valid) : todOf a < usPerDay := by
  obtain ⟨_, _, _, _, _, hh, hmi, hs, hus⟩ := h
  unfold todOf usPerDay
  omega

/-- The full round trip: converting a valid instant to microseconds
since the epoch and back recovers the instant. -/
theorem fromMicros_toMicros (a : CalendarInstant) (h : a.Valid) :
    fromMicros (toMicros a) = a := by
  have htod : todOf a < 86400000000 := by
    have ht := todOf_lt a h
    unfold usPerDay at ht
    exact ht
  have hdiv : toMicros a / usPerDay = toOrdinal a := by
    unfold toMicros usPerDay
    omega
  have hmod : toMicros a % usPerDay = todOf a := by
    unfold toMicros usPerDay
    omega
  simp only [fromMicros, hdiv, hmod, fromOrdinal_toOrdinal a h]
  obtain ⟨hy, hm1, hm2, hd1, hd2, hh, hmi, hs, hus⟩ := h
  obtain ⟨y, mo, d, hr, mi, s, us⟩ := a
  have htd : todOf ⟨y, mo, d, hr, mi, s, us⟩ =
      ((hr * 60 + mi) * 60 + s) * 1000000 + us := rfl
  have hh' : hr < 24 := hh
  have hmi' : mi < 60 := hmi
  have hs' : s < 60 := hs
  have hus' : us < 1000000 := hus
  simp only [CalendarInstant.mk.injEq]
  refine ⟨trivial, trivial, trivial, ?_, ?_, ?_, ?_⟩ <;> omega

-- ### Free-form parsing (numeric date scanning)

/-- Separator characters recognized when scanning free-form text. -/
def isSepChar (c : Char) : Bool :=
  c == '-' || c == '/' || c == ',' || c == ' '

/-- Split a character list into maximal separator-free groups. -/
def splitGroupsAux : List Char → List Char → List (List Char)
  | [], acc => if acc.isEmpty then [] else [acc.reverse]
  | c :: rest, acc =>
    if isSepChar c then
      if acc.isEmpty then splitGroupsAux rest []
      else acc.reverse :: splitGroupsAux rest []
    else splitGroupsAux rest (c :: acc)

/-- Split a character list into maximal separator-free groups. -/
def splitGroups (cs : List Char) : List (List Char) :=
  splitGroupsAux cs []

/-- Numeric value of a decimal digit character. -/
def digitVal (c : Char) : Nat := c.toNat - 48

/-- Value of a list of decimal digit characters. -/
def digitsToNat (g : List Char) : Nat :=
  g.foldl (fun acc c => acc * 10 + digitVal c) 0

/-- A group contributes a number exactly when it is nonempty and all
digits. -/
def groupToNat (g : List Char) : Option Nat :=
  if !g.isEmpty && g.all Char.isDigit then some (digitsToNat g) else none

/-- The numeric groups of a text, or `none` when some group is not
numeric. -/
def numericGroups (cs : List Char) : Option (List Nat) :=
  (splitGroups cs).mapM groupToNat

/-- Modelled from the spec: resolve the day/month ordering of a
three-part numeric date `a?b?year`. When both orderings are valid,
`dayFirst` selects the interpretation; when only one assignment is
valid it is used regardless of the flag; otherwise the parse fails.
Returns `(month, day)`. -/
def resolveDayMonth (year a b : Nat) (dayFirst : Bool) : Option (Nat × Nat) :=
  if dayFirst then
    if 1 ≤ b ∧ b ≤ 12 ∧ 1 ≤ a ∧ a ≤ daysInMonth year b then some (b, a)
    else if 1 ≤ a ∧ a ≤ 12 ∧ 1 ≤ b ∧ b ≤ daysInMonth year a then some (a, b)
    else none
  else
    if 1 ≤ a ∧ a ≤ 12 ∧ 1 ≤ b ∧ b ≤ daysInMonth year a then some (a, b)
    else if 1 ≤ b ∧ b ≤ 12 ∧ 1 ≤ a ∧ a ≤ daysInMonth year b then some (b, a)
    else none

/-- Modelled from the spec: interpretation of the scanned numeric
groups. Three groups `[a, b, year]` supply day, month and year (order
resolved by `resolveDayMonth`); two groups `[month, year]` supply month
and year. Every calendar field absent from the input is filled from the
corresponding field of the reference instant `now`. -/
def parseGroups (now : CalendarInstant) (groups : List Nat)
    (dayFirst : Bool) : Option CalendarInstant :=
  match groups with
  | [a, b, c] =>
    if 1 ≤ c then
      match resolveDayMonth c a b dayFirst with
      | some md =>
        some ⟨c, md.1, md.2, now.hour, now.minute, now.second,
          now.microsecond⟩
      | none => none
    else none
  | [a, b] =>
    if 1 ≤ a ∧ a ≤ 12 ∧ 32 ≤ b then
      some ⟨b, a, now.day, now.hour, now.minute, now.second,
        now.microsecond⟩
    else none
  | _ => none

/-- Modelled from the spec: `parse_free_form` scans the text for
numeric date components and resolves them into a CalendarInstant,
using `day_first` for disambiguation; fields absent from the input are
filled from the reference instant `now` (the spec's `current_instant()`
read at call time, made an explicit parameter as the spec's design
notes direct). Returns `none` (the spec's `ParseError`) when no
recognizable date pattern exists. -/
def parse_free_form (now : CalendarInstant) (text : String)
    (dayFirst : Bool) : Option CalendarInstant :=
  match numericGroups text.toList with
  | some gs => parseGroups now gs dayFirst
  | none => none

/-- Element-wise parsing with positions, failing at the first
unparseable element. -/
def parseCollectionFrom (now : CalendarInstant) (dayFirst : Bool) :
    Nat → List String → Except Nat (List CalendarInstant)
  | _, [] => Except.ok []
  | i, t :: ts =>
    match parse_free_form now t dayFirst with
    | none => Except.error i
    | some c =>
      match parseCollectionFrom now dayFirst (i + 1) ts with
      | Except.error j => Except.error j
      | Except.ok cs => Except.ok (c :: cs)

/-- Modelled from the spec: `parse_collection` applies free-form
parsing element-wise, preserving order; it fails atomically with the
position of the offending element (the spec's `ParseError`) when any
element is unparseable, returning no partial results. -/
def parse_collection (now : CalendarInstant) (tokens : List String)
    (dayFirst : Bool) : Except Nat (List CalendarInstant) :=
  parseCollectionFrom now dayFirst 0 tokens

-- ### Explicit-format parsing

/-- A format token: a field placeholder or a literal character. -/
inductive FmtTok where
  | fyear
  | fmonth
  | fday
  | fhour
  | fminute
  | fsecond
  | lit (c : Char)
deriving DecidableEq, Repr

/-- Directive table for `%`-placeholders. -/
def directiveOf (c : Char) : Option FmtTok :=
  match c with
  | 'Y' => some FmtTok.fyear
  | 'm' => some FmtTok.fmonth
  | 'd' => some FmtTok.fday
  | 'H' => some FmtTok.fhour
  | 'M' => some FmtTok.fminute
  | 'S' => some FmtTok.fsecond
  | _ => none

/-- Tokenize a format string into placeholders and literals. -/
def tokenizeFormat : List Char → Option (List FmtTok)
  | [] => some []
  | '%' :: [] => none
  | '%' :: c :: rest =>
    match directiveOf c with
    | some t => (tokenizeFormat rest).map (fun ts => t :: ts)
    | none => none
  | c :: rest => (tokenizeFormat rest).map (fun ts => FmtTok.lit c :: ts)

/-- Consume up to `maxLen` leading digits, returning the value read,
the number of digits consumed, and the remaining characters. -/
def readNumAux : Nat → Nat → Nat → List Char → Nat × Nat × List Char
  | 0, acc, cnt, cs => (acc, cnt, cs)
  | _ + 1, acc, cnt, [] => (acc, cnt, [])
  | m + 1, acc, cnt, c :: rest =>
    if c.isDigit then readNumAux m (acc * 10 + digitVal c) (cnt + 1) rest
    else (acc, cnt, c :: rest)

/-- Read a 1- or 2-digit field. -/
def readNum2 (cs : List Char) : Option (Nat × List Char) :=
  let r := readNumAux 2 0 0 cs
  if r.2.1 = 0 then none else some (r.1, r.2.2)

/-- Read an exactly-4-digit year field. -/
def readYear (cs : List Char) : Option (Nat × List Char) :=
  let r := readNumAux 4 0 0 cs
  if r.2.1 = 4 then some (r.1, r.2.2) else none

/-- Run a tokenized format against the input, updating the fields the
placeholders supply; the whole input must be consumed. -/
def runFmt : List FmtTok → List Char → CalendarInstant →
    Option CalendarInstant
  | [], [], st => some st
  | [], _ :: _, _ => none
  | FmtTok.fyear :: ts, cs, st =>
    match readYear cs with
    | some vr => runFmt ts vr.2 { st with year := vr.1 }
    | none => none
  | FmtTok.fmonth :: ts, cs, st =>
    match readNum2 cs with
    | some vr => runFmt ts vr.2 { st with month := vr.1 }
    | none => none
  | FmtTok.fday :: ts, cs, st =>
    match readNum2 cs with
    | some vr => runFmt ts vr.2 { st with day := vr.1 }
    | none => none
  | FmtTok.fhour :: ts, cs, st =>
    match readNum2 cs with
    | some vr => runFmt ts vr.2 { st with hour := vr.1 }
    | none => none
  | FmtTok.fminute :: ts, cs, st =>
    match readNum2 cs with
    | some vr => runFmt ts vr.2 { st with minute := vr.1 }
    | none => none
  | FmtTok.fsecond :: ts, cs, st =>
    match readNum2 cs with
    | some vr => runFmt ts vr.2 { st with second := vr.1 }
    | none => none
  | FmtTok.lit c :: ts, cs, st =>
    match cs with
    | c2 :: rest => if c2 = c then runFmt ts rest st else none
    | [] => none

/-- The fixed, clock-independent defaults of explicit-format parsing:
first day of the first month of 1900, midnight. -/
def strptimeDefault : CalendarInstant := ⟨1900, 1, 1, 0, 0, 0, 0⟩

/-- Modelled from the spec: `parse_with_format` — strict parsing
against an explicit format specification; fields omitted from the
format receive a fixed default (first day of month, midnight) rather
than any current-time fallback. Returns `none` (the spec's
`FormatMismatchError`) when the text does not conform to the format. -/
def parse_with_format (text fmt : String) : Option CalendarInstant :=
  match tokenizeFormat fmt.toList with
  | none => none
  | some ts =>
    match runFmt ts text.toList strptimeDefault with
    | none => none
    | some r => if r.Valid then some r else none

-- ### Field combination and range generation

/-- Element-wise zip of year/month/day values into instants with
hour/minute/second zero. -/
def zipFields : List Nat → List Nat → List Nat → List CalendarInstant
  | y :: ys, m :: ms, d :: ds => ⟨y, m, d, 0, 0, 0, 0⟩ :: zipFields ys ms ds
  | _, _, _ => []

/-- Modelled from the spec: `combine_fields` — element-wise zip of
three equal-length sequences into CalendarInstant values
(hour/minute/second default to zero); fails (the spec's
`LengthMismatchError`) when the lengths differ. -/
def combine_fields (years months days : List Nat) :
    Option (List CalendarInstant) :=
  if years.length = months.length ∧ months.length = days.length then
    some (zipFields years months days)
  else none

/-- Modelled from the spec: `generate_range` — `periods` CalendarInstant
values starting at `start`, each subsequent value offset by `step` from
the previous. -/
def generate_range (start : CalendarInstant) (periods : Nat)
    (step : Duration) : List CalendarInstant :=
  match periods with
  | 0 => []
  | p + 1 => start :: generate_range (addDuration start step) p step

-- ### Behavioral lemmas

/-- Fields whose placeholder does not occur in the token list keep the
value they had in the starting state: the format parser only writes the
fields its placeholders name. -/
theorem runFmt_frame :
    ∀ (ts : List FmtTok) (cs : List Char) (st r : CalendarInstant),
      runFmt ts cs st = some r →
      (FmtTok.fday ∉ ts → r.day = st.day) ∧
      (FmtTok.fhour ∉ ts → r.hour = st.hour) ∧
      (FmtTok.fminute ∉ ts → r.minute = st.minute) ∧
      (FmtTok.fsecond ∉ ts → r.second = st.second) ∧
      r.microsecond = st.microsecond := by
  intro ts
  induction ts with
  | nil =>
    intro cs st r h
    cases cs with
    | nil =>
      have hsr : st = r := by simpa [runFmt] using h
      subst hsr
      exact ⟨fun _ => rfl, fun _ => rfl, fun _ => rfl, fun _ => rfl, rfl⟩
    | cons c cs => simp [runFmt] at h
  | cons t ts ih =>
    intro cs st r h
    cases t with
    | fyear =>
      simp only [runFmt] at h
      cases hr : readYear cs with
      | none => simp [hr] at h
      | some vr =>
        rw [hr] at h
        simp only at h
        obtain ⟨h1, h2, h3, h4, h5⟩ := ih vr.2 _ r h
        exact ⟨fun hm => h1 (fun hx => hm (List.mem_cons_of_mem _ hx)),
               fun hm => h2 (fun hx => hm (List.mem_cons_of_mem _ hx)),
               fun hm => h3 (fun hx => hm (List.mem_cons_of_mem _ hx)),
               fun hm => h4 (fun hx => hm (List.mem_cons_of_mem _ hx)),
               h5⟩
    | fmonth =>
      simp only [runFmt] at h
      cases hr : readNum2 cs with
      | none => simp [hr] at h
      | some vr =>
        rw [hr] at h
        simp only at h
        obtain ⟨h1, h2, h3, h4, h5⟩ := ih vr.2 _ r h
        exact ⟨fun hm => h1 (fun hx => hm (List.mem_cons_of_mem _ hx)),
               fun hm => h2 (fun hx => hm (List.mem_cons_of_mem _ hx)),
               fun hm => h3 (fun hx => hm (List.mem_cons_of_mem _ hx)),
               fun hm => h4 (fun hx => hm (List.mem_cons_of_mem _ hx)),
               h5⟩
    | fday =>
      simp only [runFmt] at h
      cases hr : readNum2 cs with
      | none => simp [hr] at h
      | some vr =>
        rw [hr] at h
        simp only at h
        obtain ⟨h1, h2, h3, h4, h5⟩ := ih vr.2 _ r h
        exact ⟨fun hm => absurd (List.mem_cons_self _ _) hm,
               fun hm => h2 (fun hx => hm (List.mem_cons_of_mem _ hx)),
               fun hm => h3 (fun hx => hm (List.mem_cons_of_mem _ hx)),
               fun hm => h4 (fun hx => hm (List.mem_cons_of_mem _ hx)),
               h5⟩
    | fhour =>
      simp only [runFmt] at h
      cases hr : readNum2 cs with
      | none => simp [hr] at h
      | some vr =>
        rw [hr] at h
        simp only at h
        obtain ⟨h1, h2, h3, h4, h5⟩ := ih vr.2 _ r h
        exact ⟨fun hm => h1 (fun hx => hm (List.mem_cons_of_mem _ hx)),
               fun hm => absurd (List.mem_cons_self _ _) hm,
               fun hm => h3 (fun hx => hm (List.mem_cons_of_mem _ hx)),
               fun hm => h4 (fun hx => hm (List.mem_cons_of_mem _ hx)),
               h5⟩
    | fminute =>
      simp only [runFmt] at h
      cases hr : readNum2 cs with
      | none => simp [hr] at h
      | some vr =>
        rw [hr] at h
        simp only at h
        obtain ⟨h1, h2, h3, h4, h5⟩ := ih vr.2 _ r h
        exact ⟨fun hm => h1 (fun hx => hm (List.mem_cons_of_mem _ hx)),
               fun hm => h2 (fun hx => hm (List.mem_cons_of_mem _ hx)),
               fun hm => absurd (List.mem_cons_self _ _) hm,
               fun hm => h4 (fun hx => hm (List.mem_cons_of_mem _ hx)),
               h5⟩
    | fsecond =>
      simp only [runFmt] at h
      cases hr : readNum2 cs with
      | none => simp [hr] at h
      | some vr =>
        rw [hr] at h
        simp only at h
        obtain ⟨h1, h2, h3, h4, h5⟩ := ih vr.2 _ r h
        exact ⟨fun hm => h1 (fun hx => hm (List.mem_cons_of_mem _ hx)),
               fun hm => h2 (fun hx => hm (List.mem_cons_of_mem _ hx)),
               fun hm => h3 (fun hx => hm (List.mem_cons_of_mem _ hx)),
               fun hm => absurd (List.mem_cons_self _ _) hm,
               h5⟩
    | lit c =>
      cases cs with
      | nil => simp [runFmt] at h
      | cons c2 rest =>
        simp only [runFmt] at h
        by_cases hc : c2 = c
        · rw [if_pos hc] at h
          obtain ⟨h1, h2, h3, h4, h5⟩ := ih rest st r h
          exact ⟨fun hm => h1 (fun hx => hm (List.mem_cons_of_mem _ hx)),
                 fun hm => h2 (fun hx => hm (List.mem_cons_of_mem _ hx)),
                 fun hm => h3 (fun hx => hm (List.mem_cons_of_mem _ hx)),
                 fun hm => h4 (fun hx => hm (List.mem_cons_of_mem _ hx)),
                 h5⟩
        · rw [if_neg hc] at h
          simp at h

/-- Element-wise content of `zipFields`. -/
theorem zipFields_get :
    ∀ (ys ms ds : List Nat) (j y m d : Nat),
      ys.get? j = some y → ms.get? j = some m → ds.get? j = some d →
      (zipFields ys ms ds).get? j = some ⟨y, m, d, 0, 0, 0, 0⟩ := by
  intro ys
  induction ys with
  | nil => intro ms ds j y m d hy; simp at hy
  | cons y0 ys ih =>
    intro ms ds j y m d hy hm hd
    cases ms with
    | nil => simp at hm
    | cons m0 ms =>
      cases ds with
      | nil => simp at hd
      | cons d0 ds =>
        cases j with
        | zero =>
          simp only [List.get?_cons_zero, Option.some.injEq] at hy hm hd
          subst hy; subst hm; subst hd
          rfl
        | succ j =>
          simp only [List.get?_cons_succ] at hy hm hd
          simpa [zipFields] using ih ms ds j y m d hy hm hd

/-- Length of `zipFields` on equal-length inputs. -/
theorem zipFields_length :
    ∀ (ys ms ds : List Nat), ys.length = ms.length → ms.length = ds.length →
      (zipFields ys ms ds).length = ys.length := by
  intro ys
  induction ys with
  | nil => intro ms ds _ _; rfl
  | cons y0 ys ih =>
    intro ms ds h1 h2
    cases ms with
    | nil => simp at h1
    | cons m0 ms =>
      cases ds with
      | nil => simp at h2
      | cons d0 ds =>
        simp only [List.length_cons] at h1 h2
        simp [zipFields, ih ms ds (by omega) (by omega)]

/-- Characterization of the indexed collection parser: either every
element parses and the results line up with the inputs, or it reports
the absolute position of an unparseable element. -/
theorem parseCollectionFrom_spec (now : CalendarInstant) (dayFirst : Bool) :
    ∀ (tokens : List String) (i : Nat),
      (∃ res, parseCollectionFrom now dayFirst i tokens = Except.ok res ∧
        res.length = tokens.length ∧
        ∀ j, res.get? j =
          (tokens.get? j).bind (fun t => parse_free_form now t dayFirst)) ∨
      (∃ pos t, parseCollectionFrom now dayFirst i tokens =
          Except.error (i + pos) ∧
        tokens.get? pos = some t ∧ parse_free_form now t dayFirst = none) := by
  intro tokens
  induction tokens with
  | nil =>
    intro i
    left
    exact ⟨[], rfl, rfl, fun j => by cases j <;> rfl⟩
  | cons t ts ih =>
    intro i
    cases hp : parse_free_form now t dayFirst with
    | none =>
      right
      refine ⟨0, t, ?_, rfl, hp⟩
      simp [parseCollectionFrom, hp]
    | some c =>
      rcases ih (i + 1) with ⟨res, hok, hlen, hidx⟩ | ⟨pos, u, herr, hget, hnone⟩
      · left
        refine ⟨c :: res, ?_, by simp [hlen], ?_⟩
        · simp [parseCollectionFrom, hp, hok]
        · intro j
          cases j with
          | zero => simp [hp]
          | succ j => simpa using hidx j
      · right
        refine ⟨pos + 1, u, ?_, by simpa using hget, hnone⟩
        have hsh : i + (pos + 1) = (i + 1) + pos := by omega
        rw [hsh]
        simp [parseCollectionFrom, hp, herr]

-- ### Claims

/-- C1: for the ambiguous three-part numeric date string "06-04-2001",
free-form parsing with day_first = true returns day 6 and month 4, and
with day_first = false returns day 4 and month 6: the flag alone
decides the day/month ordering of an ambiguous string. -/
theorem claim_dayfirst_decides_ambiguous (now : CalendarInstant) :
    (∃ r, parse_free_form now "06-04-2001" true = some r ∧
      r.day = 6 ∧ r.month = 4 ∧ r.year = 2001) ∧
    (∃ r, parse_free_form now "06-04-2001" false = some r ∧
      r.day = 4 ∧ r.month = 6 ∧ r.year = 2001) :=
  ⟨⟨⟨2001, 4, 6, now.hour, now.minute, now.second, now.microsecond⟩,
      rfl, rfl, rfl, rfl⟩,
    ⟨⟨2001, 6, 4, now.hour, now.minute, now.second, now.microsecond⟩,
      rfl, rfl, rfl, rfl⟩⟩

/-- C2: explicit-format parsing fills every calendar field omitted from
the format with a fixed, clock-independent default (day 1, time fields
0); in particular parsing "06-1995" with format "%m-%Y" always yields
1995-06-01 00:00:00.000000. (`parse_with_format` takes no reference
instant: its output cannot depend on the clock.) -/
theorem claim_format_fixed_defaults :
    parse_with_format "06-1995" "%m-%Y" = some ⟨1995, 6, 1, 0, 0, 0, 0⟩ ∧
    (∀ (text fmt : String) (ts : List FmtTok) (r : CalendarInstant),
      tokenizeFormat fmt.toList = some ts →
      parse_with_format text fmt = some r →
      (FmtTok.fday ∉ ts → r.day = 1) ∧
      (FmtTok.fhour ∉ ts → r.hour = 0) ∧
      (FmtTok.fminute ∉ ts → r.minute = 0) ∧
      (FmtTok.fsecond ∉ ts → r.second = 0) ∧
      r.microsecond = 0) := by
  constructor
  · decide
  · intro text fmt ts r htok hpf
    simp only [parse_with_format, htok] at hpf
    cases hrun : runFmt ts text.toList strptimeDefault with
    | none => rw [hrun] at hpf; simp at hpf
    | some r0 =>
      rw [hrun] at hpf
      simp only at hpf
      by_cases hv : r0.Valid
      · rw [if_pos hv] at hpf
        have hr : r0 = r := by simpa using hpf
        subst hr
        exact runFmt_frame ts text.toList strptimeDefault r0 hrun
      · rw [if_neg hv] at hpf
        simp at hpf

/-- C2 witness: the concrete format parse and a discharge of the
general part at the "%m-%Y" format, whose token list omits the day
placeholder, so the parsed day is the fixed default 1. -/
theorem claim_format_fixed_defaults_witness :
    parse_with_format "06-1995" "%m-%Y" = some ⟨1995, 6, 1, 0, 0, 0, 0⟩ ∧
    (⟨1995, 6, 1, 0, 0, 0, 0⟩ : CalendarInstant).day = 1 :=
  ⟨claim_format_fixed_defaults.1,
    (claim_format_fixed_defaults.2 "06-1995" "%m-%Y"
      [FmtTok.fmonth, FmtTok.lit '-', FmtTok.fyear] ⟨1995, 6, 1, 0, 0, 0, 0⟩
      (by decide) (by decide)).1 (by decide)⟩

/-- C3: free-form parsing fills each calendar field absent from the
input from the corresponding field of the reference instant (the
spec's `current_instant()` read at call time): for any two-part
month/year input, and in particular for "06-1995", the day and all
time fields of the result equal those of the reference instant, so the
result depends on the clock reading. -/
theorem claim_freeform_now_fill (now : CalendarInstant) :
    (∀ (text : String) (a b : Nat), numericGroups text.toList = some [a, b] →
      1 ≤ a → a ≤ 12 → 32 ≤ b →
      parse_free_form now text false =
        some ⟨b, a, now.day, now.hour, now.minute, now.second,
          now.microsecond⟩) ∧
    parse_free_form now "06-1995" false =
      some ⟨1995, 6, now.day, now.hour, now.minute, now.second,
        now.microsecond⟩ := by
  constructor
  · intro text a b hng ha1 ha2 hb
    have hpf : parse_free_form now text false = parseGroups now [a, b] false := by
      unfold parse_free_form
      rw [hng]
    rw [hpf]
    show (if 1 ≤ a ∧ a ≤ 12 ∧ 32 ≤ b then
        some (⟨b, a, now.day, now.hour, now.minute, now.second,
          now.microsecond⟩ : CalendarInstant)
      else none) = _
    rw [if_pos ⟨ha1, ha2, hb⟩]
  · rfl

/-- C3 witness: at a concrete reference instant, parsing "06-1995"
yields month 6 and year 1995 with the day and time fields copied from
the reference instant. -/
theorem claim_freeform_now_fill_witness :
    parse_free_form ⟨2019, 10, 12, 16, 55, 3, 7⟩ "06-1995" false =
      some ⟨1995, 6, 12, 16, 55, 3, 7⟩ :=
  (claim_freeform_now_fill ⟨2019, 10, 12, 16, 55, 3, 7⟩).1 "06-1995" 6 1995
    (by decide) (by decide) (by decide) (by decide)

/-- C4: collection parsing either returns exactly one instant per input
string, in input order (each the free-form parse of the corresponding
input), or fails with the position of an unparseable element and
returns no partial results. -/
theorem claim_collection_atomic (now : CalendarInstant)
    (tokens : List String) (dayFirst : Bool) :
    (∃ res, parse_collection now tokens dayFirst = Except.ok res ∧
      res.length = tokens.length ∧
      ∀ j, res.get? j =
        (tokens.get? j).bind (fun t => parse_free_form now t dayFirst)) ∨
    (∃ pos t, parse_collection now tokens dayFirst = Except.error pos ∧
      tokens.get? pos = some t ∧ parse_free_form now t dayFirst = none) := by
  rcases parseCollectionFrom_spec now dayFirst tokens 0 with
    h | ⟨pos, u, herr, hget, hnone⟩
  · left; exact h
  · right
    refine ⟨pos, u, ?_, hget, hnone⟩
    unfold parse_collection
    rw [herr]
    simp

/-- C5: `generate_range start periods step` returns exactly `periods`
instants, the first equal to `start`, and each subsequent one exactly
`step` after its predecessor. -/
theorem claim_generate_range (start : CalendarInstant) (periods : Nat)
    (step : Duration) :
    (generate_range start periods step).length = periods ∧
    (0 < periods → (generate_range start periods step).get? 0 = some start) ∧
    (∀ i, i + 1 < periods →
      (generate_range start periods step).get? (i + 1) =
        ((generate_range start periods step).get? i).map
          (fun c => addDuration c step)) := by
  induction periods generalizing start with
  | zero =>
    exact ⟨rfl, fun h => absurd h (by omega), fun i h => absurd h (by omega)⟩
  | succ p ih =>
    obtain ⟨ihlen, ihhead, ihstep⟩ := ih (addDuration start step)
    refine ⟨by simp [generate_range, ihlen], fun _ => rfl, ?_⟩
    intro i hi
    cases i with
    | zero =>
      have hp : 0 < p := by omega
      simpa [generate_range] using ihhead hp
    | succ j =>
      have hj : j + 1 < p := by omega
      simpa [generate_range] using ihstep j hj

/-- C5 witness: five periods of a one-day step, with the theorem
instantiated at a concrete start instant. -/
theorem claim_generate_range_witness :
    (generate_range ⟨2000, 1, 1, 0, 0, 0, 0⟩ 5 oneDayDuration).length = 5 ∧
    (generate_range ⟨2000, 1, 1, 0, 0, 0, 0⟩ 5 oneDayDuration).get? 0 =
      some ⟨2000, 1, 1, 0, 0, 0, 0⟩ ∧
    (generate_range ⟨2000, 1, 1, 0, 0, 0, 0⟩ 5 oneDayDuration).get? 1 =
      ((generate_range ⟨2000, 1, 1, 0, 0, 0, 0⟩ 5 oneDayDuration).get? 0).map
        (fun c => addDuration c oneDayDuration) :=
  ⟨(claim_generate_range ⟨2000, 1, 1, 0, 0, 0, 0⟩ 5 oneDayDuration).1,
    (claim_generate_range ⟨2000, 1, 1, 0, 0, 0, 0⟩ 5 oneDayDuration).2.1
      (by omega),
    (claim_generate_range ⟨2000, 1, 1, 0, 0, 0, 0⟩ 5 oneDayDuration).2.2 0
      (by omega)⟩

/-- C6: on equal-length year/month/day sequences, `combine_fields`
zips element-wise into instants whose hour, minute and second are
zero. -/
theorem claim_combine_fields (years months days : List Nat)
    (h1 : years.length = months.length)
    (h2 : months.length = days.length) :
    ∃ res, combine_fields years months days = some res ∧
      res.length = years.length ∧
      ∀ j y m d, years.get? j = some y → months.get? j = some m →
        days.get? j = some d → res.get? j = some ⟨y, m, d, 0, 0, 0, 0⟩ := by
  refine ⟨zipFields years months days, ?_,
    zipFields_length years months days h1 h2,
    fun j y m d hy hm hd => zipFields_get years months days j y m d hy hm hd⟩
  unfold combine_fields
  rw [if_pos ⟨h1, h2⟩]

/-- C6 witness: the concrete example, together with a direct
evaluation showing the zipped contents. -/
theorem claim_combine_fields_witness :
    (∃ res, combine_fields [1995, 1996] [2, 3] [27, 17] = some res ∧
      res.length = 2 ∧
      ∀ j y m d, [1995, 1996].get? j = some y → [2, 3].get? j = some m →
        [27, 17].get? j = some d → res.get? j = some ⟨y, m, d, 0, 0, 0, 0⟩) ∧
    combine_fields [1995, 1996] [2, 3] [27, 17] =
      some [⟨1995, 2, 27, 0, 0, 0, 0⟩, ⟨1996, 3, 17, 0, 0, 0, 0⟩] :=
  ⟨claim_combine_fields [1995, 1996] [2, 3] [27, 17] rfl rfl, by decide⟩

/-- C7: for valid instants a ≤ b, adding the Duration b - a back to a
reproduces b exactly (difference/add round trip). -/
theorem claim_sub_add_roundtrip (a b : CalendarInstant)
    (ha : a.Valid) (hb : b.Valid) (hab : toMicros a ≤ toMicros b) :
    addDuration a (subInstant b a) = b := by
  unfold addDuration subInstant
  have hn : ((toMicros a : Int) +
      ((toMicros b : Int) - (toMicros a : Int))).toNat = toMicros b := by
    omega
  rw [hn]
  exact fromMicros_toMicros b hb

/-- C7 witness: the script's birthday pair, 1995-01-12 and 2019-10-12. -/
theorem claim_sub_add_roundtrip_witness :
    addDuration ⟨1995, 1, 12, 0, 0, 0, 0⟩
      (subInstant ⟨2019, 10, 12, 0, 0, 0, 0⟩ ⟨1995, 1, 12, 0, 0, 0, 0⟩) =
      ⟨2019, 10, 12, 0, 0, 0, 0⟩ :=
  claim_sub_add_roundtrip ⟨1995, 1, 12, 0, 0, 0, 0⟩ ⟨2019, 10, 12, 0, 0, 0, 0⟩
    (by decide) (by decide) (by decide)

/-- C8: adding a whole-day Duration to a valid instant leaves every
time-of-day field unchanged, and adding one day to 2019-10-11 yields
2019-10-12 with all other fields unaffected beyond the one-day
offset. -/
theorem claim_addDuration_frame (a : CalendarInstant) (k : Nat)
    (ha : a.Valid) :
    ((addDuration a ((k : Int) * (usPerDay : Int))).hour = a.hour ∧
      (addDuration a ((k : Int) * (usPerDay : Int))).minute = a.minute ∧
      (addDuration a ((k : Int) * (usPerDay : Int))).second = a.second ∧
      (addDuration a ((k : Int) * (usPerDay : Int))).microsecond =
        a.microsecond) ∧
    addDuration ⟨2019, 10, 11, 0, 0, 0, 0⟩ oneDayDuration =
      ⟨2019, 10, 12, 0, 0, 0, 0⟩ := by
  constructor
  · have htod : todOf a < 86400000000 := by
      have ht := todOf_lt a ha
      unfold usPerDay at ht
      exact ht
    have hmic : toMicros a = toOrdinal a * 86400000000 + todOf a := rfl
    have hn : ((toMicros a : Int) + (k : Int) * ((usPerDay : Nat) : Int)).toNat =
        toMicros a + k * 86400000000 := by
      unfold usPerDay
      omega
    unfold addDuration
    rw [hn]
    have hmod : (toMicros a + k * 86400000000) % usPerDay = todOf a := by
      unfold usPerDay
      omega
    simp only [fromMicros, hmod]
    obtain ⟨hy, hm1, hm2, hd1, hd2, hh, hmi, hs, hus⟩ := ha
    obtain ⟨y, mo, d, hr, mi, s, us⟩ := a
    have htd : todOf ⟨y, mo, d, hr, mi, s, us⟩ =
        ((hr * 60 + mi) * 60 + s) * 1000000 + us := rfl
    have hh' : hr < 24 := hh
    have hmi' : mi < 60 := hmi
    have hs' : s < 60 := hs
    have hus' : us < 1000000 := hus
    refine ⟨?_, ?_, ?_, ?_⟩
    · show todOf ⟨y, mo, d, hr, mi, s, us⟩ / 3600000000 = hr
      omega
    · show todOf ⟨y, mo, d, hr, mi, s, us⟩ / 60000000 % 60 = mi
      omega
    · show todOf ⟨y, mo, d, hr, mi, s, us⟩ / 1000000 % 60 = s
      omega
    · show todOf ⟨y, mo, d, hr, mi, s, us⟩ % 1000000 = us
      omega
  · have he : ((toMicros (⟨2019, 10, 11, 0, 0, 0, 0⟩ : CalendarInstant) : Int) +
        oneDayDuration).toNat =
        toMicros (⟨2019, 10, 12, 0, 0, 0, 0⟩ : CalendarInstant) := by decide
    unfold addDuration
    rw [he]
    exact fromMicros_toMicros _ (by decide)

/-- C8 witness: the frame property discharged at a concrete instant
with a nonzero time of day and a one-day offset. -/
theorem claim_addDuration_frame_witness :
    ((addDuration ⟨2019, 10, 11, 1, 2, 3, 4⟩
        (((1 : Nat) : Int) * (usPerDay : Int))).hour = 1 ∧
      (addDuration ⟨2019, 10, 11, 1, 2, 3, 4⟩
        (((1 : Nat) : Int) * (usPerDay : Int))).minute = 2 ∧
      (addDuration ⟨2019, 10, 11, 1, 2, 3, 4⟩
        (((1 : Nat) : Int) * (usPerDay : Int))).second = 3 ∧
      (addDuration ⟨2019, 10, 11, 1, 2, 3, 4⟩
        (((1 : Nat) : Int) * (usPerDay : Int))).microsecond = 4) ∧
    addDuration ⟨2019, 10, 11, 0, 0, 0, 0⟩ oneDayDuration =
      ⟨2019, 10, 12, 0, 0, 0, 0⟩ :=
  claim_addDuration_frame ⟨2019, 10, 11, 1, 2, 3, 4⟩ 1 (by decide)

/-- C9: when the first component of a three-part numeric date cannot be
a month (here 21), free-form parsing with day_first = false still
succeeds and interprets that component as the day: the flag is
overridden whenever only one day/month assignment is valid. -/
theorem claim_dayfirst_override (now : CalendarInstant) :
    (∀ (yearv a b : Nat), 12 < a → 1 ≤ b → b ≤ 12 → 1 ≤ a →
      a ≤ daysInMonth yearv b →
      resolveDayMonth yearv a b false = some (b, a)) ∧
    (∃ r, parse_free_form now "21-06-1995" false = some r ∧
      r.day = 21 ∧ r.month = 6 ∧ r.year = 1995) := by
  constructor
  · intro yearv a b ha12 hb1 hb2 ha1 had
    unfold resolveDayMonth
    rw [if_neg (by simp)]
    rw [if_neg (by omega)]
    rw [if_pos ⟨hb1, hb2, ha1, had⟩]
  · exact ⟨⟨1995, 6, 21, now.hour, now.minute, now.second, now.microsecond⟩,
      rfl, rfl, rfl, rfl⟩

/-- C9 witness: the general override rule discharged at year 1995 with
components 21 and 6, matching the script's "21-06-1995" example. -/
theorem claim_dayfirst_override_witness :
    resolveDayMonth 1995 21 6 false = some (6, 21) ∧
    (∃ r, parse_free_form ⟨2019, 10, 12, 0, 0, 0, 0⟩ "21-06-1995" false =
      some r ∧ r.day = 21 ∧ r.month = 6 ∧ r.year = 1995) :=
  ⟨(claim_dayfirst_override ⟨2019, 10, 12, 0, 0, 0, 0⟩).1 1995 21 6
      (by decide) (by decide) (by decide) (by decide) (by decide),
    (claim_dayfirst_override ⟨2019, 10, 12, 0, 0, 0, 0⟩).2⟩

/-- C10: subtracting 1995-01-12 from 2019-10-12 gives a Duration of
exactly 9039 whole days. -/
theorem claim_birthday_days :
    durationDays (subInstant ⟨2019, 10, 12, 0, 0, 0, 0⟩
      ⟨1995, 1, 12, 0, 0, 0, 0⟩) = 9039 := by
  decide
